import Mathlib

/-!
# Verification of pyo's trigger modules and Hilbert filter

Shallow embedding of the per-block compute code in
`src/trunk/src/objects/trigmodule.c` and `src/src/objects/hilbertmodule.c`.

Modelling conventions:
* C `float`/`double` samples are modelled as `ℚ` (exact arithmetic).
* C `int`/`long` are modelled as `ℤ` or `ℕ`; a C cast `(int)x` on a
  nonnegative float is `⌊x⌋`, in general truncation toward zero (`ctrunc`).
* `rand()` draws are supplied explicitly: either as a list of pending draw
  values threaded through the state, or as explicit arguments.
* A per-block `for (i=0; i<bufsize; i++)` loop that writes `data[i]` once
  per iteration is modelled by `runGen` (producing the written samples as a
  list) and by `writeData` (the literal in-place form, which updates a
  pre-existing buffer with `List.set`).
-/

/-- C cast `(int)q`: truncation toward zero. -/
def ctrunc (q : ℚ) : ℤ :=
  if 0 ≤ q then ⌊q⌋ else -⌊-q⌋

/-- The clamp pattern `if (x < lo) x = lo;` used by the distribution code. -/
def clampLow (lo q : ℚ) : ℚ :=
  if q < lo then lo else q

/-- Generic per-block loop: run the per-sample body `f` over the input
samples, collecting the value written to `data[i]` at each iteration. -/
def runGen {σ α β : Type} (f : σ → α → σ × β) : σ → List α → σ × List β
  | s, [] => (s, [])
  | s, x :: xs =>
    let p := f s x
    let r := runGen f p.1 xs
    (r.1, p.2 :: r.2)

/-- Generic per-block loop in its literal in-place form: iteration `i`
executes the body and stores the produced sample at index `i` of the output
buffer `d` (as the C code's `self->data[i] = ...`). -/
def writeData {σ α : Type} (f : σ → α → σ × ℚ) : σ → List α → ℕ → List ℚ → σ × List ℚ
  | s, [], _, d => (s, d)
  | s, x :: xs, i, d =>
    let p := f s x
    writeData f p.1 xs (i + 1) (d.set i p.2)

/-- `self->timeStep = (int)(self->time * self->sr)` (TrigRand_init /
TrigRand_setPort / TrigChoice_init / TrigChoice_setPort). -/
def timeStepOf (time sr : ℚ) : ℤ :=
  ctrunc (time * sr)

/-- Mutable state of the TrigRand / TrigChoice ramp (glide) machinery:
`value` is the current target, `currentValue` the emitted sample,
`stepVal` the per-sample increment, `timeCount` the step counter.
`draws` is the stream of pending uniform draws (`rand()/(RAND_MAX+1)`),
consumed one per trigger. -/
structure RampState where
  value : ℚ
  currentValue : ℚ
  stepVal : ℚ
  timeCount : ℤ
  draws : List ℚ
  deriving Repr, DecidableEq

/-- Loop body of `TrigRand_generate_ii`: on a trigger sample (`in[i] == 1`)
reset the counter, draw `value = (ma - mi)*u + mi`, and either snap
(`time <= 0`) or set `stepVal = (value - currentValue)/timeStep`; then the
common ramp block; the written sample is `currentValue`. -/
def trigRandSample (time : ℚ) (timeStep : ℤ) (mi ma : ℚ) (s : RampState) (x : ℚ) :
    RampState × ℚ :=
  let s :=
    if x = 1 then
      let u := s.draws.headD 0
      let s' : RampState :=
        { s with timeCount := 0, value := (ma - mi) * u + mi, draws := s.draws.tail }
      if time ≤ 0 then { s' with currentValue := s'.value }
      else { s' with stepVal := (s'.value - s'.currentValue) / (timeStep : ℚ) }
    else s
  let s :=
    if s.timeCount = timeStep - 1 then
      { s with currentValue := s.value, timeCount := s.timeCount + 1 }
    else if s.timeCount < timeStep then
      { s with currentValue := s.currentValue + s.stepVal, timeCount := s.timeCount + 1 }
    else s
  (s, s.currentValue)

/-- Per-block run of `TrigRand_generate_ii` (fresh-output view). -/
def TrigRand_generate_ii (time : ℚ) (timeStep : ℤ) (mi ma : ℚ)
    (s : RampState) (ins : List ℚ) : RampState × List ℚ :=
  runGen (trigRandSample time timeStep mi ma) s ins

/-- Loop body of `TrigChoice_generate`: identical ramp machinery, but the
trigger draws `choice[(int)(u * chSize)]` from the user table. The pending
draws are the uniform values `rand()/RAND_MAX`. -/
def trigChoiceSample (time : ℚ) (timeStep : ℤ) (choice : List ℚ)
    (s : RampState) (x : ℚ) : RampState × ℚ :=
  let s :=
    if x = 1 then
      let u := s.draws.headD 0
      let idx := (ctrunc (u * (choice.length : ℚ))).toNat
      let s' : RampState :=
        { s with timeCount := 0, value := choice.getD idx 0, draws := s.draws.tail }
      if time ≤ 0 then { s' with currentValue := s'.value }
      else { s' with stepVal := (s'.value - s'.currentValue) / (timeStep : ℚ) }
    else s
  let s :=
    if s.timeCount = timeStep - 1 then
      { s with currentValue := s.value, timeCount := s.timeCount + 1 }
    else if s.timeCount < timeStep then
      { s with currentValue := s.currentValue + s.stepVal, timeCount := s.timeCount + 1 }
    else s
  (s, s.currentValue)

/-- State of a TrigXnoise object as seen by the generate loop: the held
output `value` and the state `σ` of the selected distribution
(`type_func_ptr`), which includes its pending random draws. -/
structure XnoiseState (σ : Type) where
  value : ℚ
  dist : σ
  deriving Repr, DecidableEq

/-- Loop body of `TrigXnoise_generate_ii` (with `x1`, `x2` folded into the
distribution function `typeFun`): on a trigger the distribution is drawn
and becomes the new held value, otherwise the held value is emitted again.
There is no ramp machinery. -/
def trigXnoiseSample {σ : Type} (typeFun : σ → σ × ℚ) (s : XnoiseState σ) (x : ℚ) :
    XnoiseState σ × ℚ :=
  let s :=
    if x = 1 then
      let p := typeFun s.dist
      { value := p.2, dist := p.1 }
    else s
  (s, s.value)

/-- Per-block run of `TrigXnoise_generate_ii` for an abstract distribution. -/
def TrigXnoise_generate_ii {σ : Type} (typeFun : σ → σ × ℚ)
    (s : XnoiseState σ) (ins : List ℚ) : XnoiseState σ × List ℚ :=
  runGen (trigXnoiseSample typeFun) s ins

/-- State of the `TrigXnoise_loopseg` (type 12) distribution. `loop_buffer`
models the `float loop_buffer[15]` array; `rands` is the stream of pending
`rand()` results, consumed in program order. -/
structure LoopsegState where
  walkerValue : ℚ
  loop_buffer : List ℚ
  loopChoice : ℕ
  loopCountPlay : ℕ
  loopTime : ℕ
  loopCountRec : ℕ
  loopLen : ℕ
  loopStop : ℕ
  rands : List ℕ
  deriving Repr, DecidableEq

/-- Pop the next `rand()` result from the pending stream. -/
def popRand (s : LoopsegState) : ℕ × LoopsegState :=
  (s.rands.headD 0, { s with rands := s.rands.tail })

/-- `self->loopLen = (rand() % 10) + 3;` — the loop length drawn in
`TrigXnoise_new` and again at the end of each playback phase. -/
def loopLenDraw (r : ℕ) : ℕ :=
  r % 10 + 3

/-- `self->loopStop = (rand() % 4) + 1;` — playback repeat count drawn when
the recording phase completes. -/
def loopStopDraw (r : ℕ) : ℕ :=
  r % 4 + 1

/-- The bounded-walk update shared by `TrigXnoise_walker` and the recording
branch of `TrigXnoise_loopseg`:
`walkerValue ± ((rand() % modulo) - modulo/2) * 0.001`, clamped to
`[0, xx1]`, with `modulo = (int)(xx2 * 1000)` after clamping `xx2` to
`0.002`. `d` is the `rand() % 2` direction draw, `r` the step draw. -/
def walkerUpdate (xx1 xx2 : ℚ) (d r : ℕ) (w : ℚ) : ℚ :=
  let xx2 := clampLow (2/1000) xx2
  let modulo := (ctrunc (xx2 * 1000)).toNat
  let delta : ℚ := (((r % modulo : ℕ) : ℤ) - ((modulo / 2 : ℕ) : ℤ)) * (1/1000)
  let w := if d % 2 = 0 then w + delta else w - delta
  let w := if w > xx1 then xx1 else w
  if w < 0 then 0 else w

/-- One call of `TrigXnoise_loopseg` (the type-12 looped random walk):
recording branch (`loopChoice == 0`) walks, records into `loop_buffer`, and
switches to playback after `loopLen` samples, drawing `loopStop`;
playback branch (`loopChoice == 1`) replays `loop_buffer[loopCountPlay++]`,
wraps at `loopLen` counting repeats in `loopTime`, and when `loopTime`
reaches `loopStop` switches back to recording with a fresh `loopLen`. -/
def TrigXnoise_loopseg (xx1 xx2 : ℚ) (s : LoopsegState) : LoopsegState × ℚ :=
  if s.loopChoice = 0 then
    let s := { s with loopCountPlay := 0, loopTime := 0 }
    let p1 := popRand s
    let p2 := popRand p1.2
    let s := p2.2
    let w := walkerUpdate xx1 xx2 p1.1 p2.1 s.walkerValue
    let s := { s with walkerValue := w,
                      loop_buffer := s.loop_buffer.set s.loopCountRec w,
                      loopCountRec := s.loopCountRec + 1 }
    let s :=
      if s.loopCountRec < s.loopLen then { s with loopChoice := 0 }
      else
        let p3 := popRand s
        { p3.2 with loopChoice := 1, loopStop := loopStopDraw p3.1 }
    (s, s.walkerValue)
  else
    let s := { s with loopCountRec := 0 }
    let w := s.loop_buffer.getD s.loopCountPlay 0
    let s := { s with walkerValue := w, loopCountPlay := s.loopCountPlay + 1 }
    let s :=
      if s.loopCountPlay < s.loopLen then { s with loopChoice := 1 }
      else { s with loopCountPlay := 0, loopTime := s.loopTime + 1 }
    let s :=
      if s.loopTime = s.loopStop then
        let p := popRand s
        { p.2 with loopChoice := 0, loopLen := loopLenDraw p.1 }
      else s
    (s, s.walkerValue)

/-- State of the `TrigXnoise_poisson` (type 10) distribution: the memoized
table (`poisson_buffer` up to its fill `poisson_tab`, modelled as the list
of filled slots) and the last-seen `x1` used for cache invalidation. -/
structure PoissonState where
  lastPoissonX1 : ℚ
  buffer : List ℚ
  deriving Repr, DecidableEq

/-- The table-rebuild loop of `TrigXnoise_poisson`: for `i = 1..11` append
`tot = (long)(1000 * E * x1^i / i!)` copies of `i`, where `E` stands for
the value the code computes as `powf(2.7182818, -x1)` (a transcendental
quantity, passed here as the parameter `expv`). -/
def poissonBuild (expv x1 : ℚ) : List ℚ :=
  ((List.range' 1 11).map fun i =>
    List.replicate (Int.toNat ⌊1000 * expv * x1 ^ i / ((Nat.factorial i : ℕ) : ℚ)⌋)
      ((i : ℕ) : ℚ)).flatten

/-- One draw of `TrigXnoise_poisson`: clamp `x1`,`x2` to `0.1`, rebuild the
table when the clamped `x1` differs from `lastPoissonX1`, then return
`poisson_buffer[rand() % poisson_tab] / 12 * x2` clamped to `[0,1]`.
When the table fill is zero the C code divides by zero (`rand() % 0`),
modelled as `none`. `r` is the `rand()` draw. -/
def TrigXnoise_poisson (expv : ℚ) (r : ℕ) (x1 x2 : ℚ) (s : PoissonState) :
    PoissonState × Option ℚ :=
  let xx1 := clampLow (1/10) x1
  let xx2 := clampLow (1/10) x2
  let s := if xx1 ≠ s.lastPoissonX1 then ⟨xx1, poissonBuild expv xx1⟩ else s
  let tab := s.buffer.length
  if tab = 0 then (s, none)
  else
    let val := s.buffer.getD (r % tab) 0 / 12 * xx2
    (s, some (if val < 0 then 0 else if val > 1 then 1 else val))

/-- `TrigXnoise_new` initializes `lastPoissonX1` to the sentinel `-99.0`
with an empty table (`poisson_tab = 0`). -/
def poissonInit : PoissonState :=
  ⟨-99, []⟩

/-- `TrigFunc_generate`: scans the input for trigger samples and calls the
user callback (modelled by counting calls). The loop never touches the
output buffer `data`. -/
def TrigFunc_generate : ℕ → List ℚ → List ℚ → ℕ × List ℚ
  | calls, [], data => (calls, data)
  | calls, x :: xs, data =>
    TrigFunc_generate (if x = 1 then calls + 1 else calls) xs data

/-- Mutable state of a TrigEnv reader. -/
structure TrigEnvState where
  active : Bool
  current_dur : ℚ
  inc : ℚ
  pointerPos : ℚ
  deriving Repr, DecidableEq

/-- The read-and-advance part of the `TrigEnv_readframes_i` loop body (all
of it except the trigger reset): when active, read `table[ipart]` and
`table[ipart+1]`, write the interpolated sample, advance `pointerPos`, and
deactivate (setting `trigsBuffer[i]`) once `pointerPos > size`. The result
records the written output sample, whether `trigsBuffer[i]` was set, and
which table indices `(ipart, ipart+1)` were read (`none` when inactive);
out-of-range C reads are modelled with default `0`. -/
def trigEnvRead (size : ℕ) (table : List ℚ) (s : TrigEnvState) :
    TrigEnvState × (ℚ × Bool × Option (ℤ × ℤ)) :=
  let step :=
    if s.active then
      let ipart := ctrunc s.pointerPos
      let fpart := s.pointerPos - ((ipart : ℤ) : ℚ)
      let xa := table.getD ipart.toNat 0
      let xb := table.getD (ipart.toNat + 1) 0
      (({ s with pointerPos := s.pointerPos + s.inc } : TrigEnvState),
        xa + (xb - xa) * fpart, some (ipart, ipart + 1))
    else (s, (0 : ℚ), none)
  let s2 := step.1
  if s2.pointerPos > (size : ℚ) ∧ s2.active then
    ({ s2 with active := false }, (step.2.1, true, step.2.2))
  else (s2, (step.2.1, false, step.2.2))

/-- Loop body of `TrigEnv_readframes_i`: the trigger reset
(`current_dur = sr*dur; inc = size/current_dur; active = 1; pointerPos = 0`)
followed by `trigEnvRead`. The `_a` variant is identical with `dur` read
per sample, so `dur` is a per-call argument here. -/
def trigEnvSample (sr : ℚ) (size : ℕ) (table : List ℚ) (dur : ℚ)
    (s : TrigEnvState) (x : ℚ) : TrigEnvState × (ℚ × Bool × Option (ℤ × ℤ)) :=
  trigEnvRead size table
    (if x = 1 then
      { active := true, current_dur := sr * dur, inc := (size : ℚ) / (sr * dur),
        pointerPos := 0 }
    else s)

/-- Per-block run of `TrigEnv_readframes_i`, collecting output sample,
end-of-read trigger flag and accessed table indices per sample. -/
def TrigEnv_readframes_i (sr : ℚ) (size : ℕ) (table : List ℚ) (dur : ℚ)
    (s : TrigEnvState) (ins : List ℚ) :
    TrigEnvState × List (ℚ × Bool × Option (ℤ × ℤ)) :=
  runGen (trigEnvSample sr size table dur) s ins

/-- Mutable state of a Counter: the pending value `tmp` and the ping-pong
`direction`. -/
structure CounterState where
  tmp : ℤ
  direction : ℤ
  deriving Repr, DecidableEq

/-- The trigger branch of `Counter_generates`: emit `tmp`, then advance it
according to `dir` (0 forward with wrap, 1 backward with wrap, 2 ping-pong
bouncing when the stepped value reaches a bound). -/
def counterTrig (cmin cmax : ℤ) (dir : ℕ) (s : CounterState) : CounterState × ℤ :=
  if dir = 0 then
    let t := s.tmp + 1
    (⟨if t > cmax then cmin else t, s.direction⟩, s.tmp)
  else if dir = 1 then
    let t := s.tmp - 1
    (⟨if t < cmin then cmax else t, s.direction⟩, s.tmp)
  else if dir = 2 then
    let t := s.tmp + s.direction
    if t ≥ cmax then (⟨t - 1, -1⟩, s.tmp)
    else if t ≤ cmin then (⟨t + 1, 1⟩, s.tmp)
    else (⟨t, s.direction⟩, s.tmp)
  else (s, s.tmp)

/-- Loop body of `Counter_generates`: only trigger samples change the
state; every sample emits the held `value` (the last emitted `tmp`). -/
def counterSample (cmin cmax : ℤ) (dir : ℕ) (s : CounterState × ℚ) (x : ℚ) :
    (CounterState × ℚ) × ℚ :=
  let s :=
    if x = 1 then
      let p := counterTrig cmin cmax dir s.1
      (p.1, (p.2 : ℚ))
    else s
  (s, s.2)

/-- Per-block run of `Counter_generates`. -/
def Counter_generates (cmin cmax : ℤ) (dir : ℕ) (s : CounterState × ℚ)
    (ins : List ℚ) : (CounterState × ℚ) × List ℚ :=
  runGen (counterSample cmin cmax dir) s ins

/-- Loop body of `Thresh_generates_i` for a fixed threshold: `ready` is the
one-shot latch; `dir` 0 pulses on upward crossings, 1 on downward, 2 on
both (constant-threshold variant, where the dir-2 re-arm is inside the
`else if`). -/
def threshSampleI (dir : ℕ) (thresh : ℚ) (ready : Bool) (x : ℚ) : Bool × ℚ :=
  if dir = 0 then
    if x > thresh ∧ ready then (false, 1)
    else if x ≤ thresh ∧ ¬ready then (true, 0)
    else (ready, 0)
  else if dir = 1 then
    if x < thresh ∧ ready then (false, 1)
    else if x ≥ thresh ∧ ¬ready then (true, 0)
    else (ready, 0)
  else if dir = 2 then
    if x > thresh ∧ ready then (false, 1)
    else if x ≤ thresh ∧ ¬ready then (true, 1)
    else (ready, 0)
  else (ready, 0)

/-- Loop body of `Thresh_generates_a` (streaming threshold, paired input
`(in[i], thresh[i])`). For `dir` 0 and 1 it matches the constant variant;
for `dir` 2 the source's `self->ready = 1;` sits after the `else if`
without braces, so `ready` is set to 1 unconditionally at the end of every
iteration. -/
def threshSampleA (dir : ℕ) (ready : Bool) (xt : ℚ × ℚ) : Bool × ℚ :=
  if dir = 0 then
    if xt.1 > xt.2 ∧ ready then (false, 1)
    else if xt.1 ≤ xt.2 ∧ ¬ready then (true, 0)
    else (ready, 0)
  else if dir = 1 then
    if xt.1 < xt.2 ∧ ready then (false, 1)
    else if xt.1 ≥ xt.2 ∧ ¬ready then (true, 0)
    else (ready, 0)
  else if dir = 2 then
    let out : ℚ :=
      if xt.1 > xt.2 ∧ ready then 1
      else if xt.1 ≤ xt.2 ∧ ¬ready then 1
      else 0
    (true, out)
  else (ready, 0)

/-- Per-block run of `Thresh_generates_i`. -/
def Thresh_generates_i (dir : ℕ) (thresh : ℚ) (ready : Bool) (ins : List ℚ) :
    Bool × List ℚ :=
  runGen (threshSampleI dir thresh) ready ins

/-- Per-block run of `Thresh_generates_a`. -/
def Thresh_generates_a (dir : ℕ) (ready : Bool) (ins : List (ℚ × ℚ)) :
    Bool × List ℚ :=
  runGen (threshSampleA dir) ready ins

/-- Delay memories of the 12 allpass sections of HilbertMain, as the two
`float x1[12]` / `float y1[12]` arrays. -/
structure HilbertState where
  x1 : List ℚ
  y1 : List ℚ
  deriving Repr, DecidableEq

/-- First chain (`for (j=0; j<6; j++)`) of `HilbertMain_filters`:
`yn1 = coefs[j]*(xn1 - y1[j]) + x1[j]; x1[j] = xn1; y1[j] = yn1; xn1 = yn1;`.
Returns the carried `xn1` together with the updated memory arrays. -/
def hilbertChain1 (coefs : List ℚ) : List ℕ → ℚ → List ℚ → List ℚ → ℚ × List ℚ × List ℚ
  | [], xn, x1, y1 => (xn, x1, y1)
  | j :: js, xn, x1, y1 =>
    let yn := coefs.getD j 0 * (xn - y1.getD j 0) + x1.getD j 0
    hilbertChain1 coefs js yn (x1.set j xn) (y1.set j yn)

/-- Second chain (`for (j=6; j<12; j++)`) of `HilbertMain_filters`:
`yn2 = coefs[j]*(xn2 - y1[j]) + x1[j]; x1[j] = xn1; y1[j] = yn1; xn2 = yn2;`.
The memory stores use the FIRST chain's `xn1`/`yn1` variables, which at this
point both hold the first chain's final output — they are passed in as the
loop-constant `xn1f`/`yn1f`. -/
def hilbertChain2 (coefs : List ℚ) (xn1f yn1f : ℚ) :
    List ℕ → ℚ → List ℚ → List ℚ → ℚ × List ℚ × List ℚ
  | [], xn, x1, y1 => (xn, x1, y1)
  | j :: js, xn, x1, y1 =>
    let yn := coefs.getD j 0 * (xn - y1.getD j 0) + x1.getD j 0
    hilbertChain2 coefs xn1f yn1f js yn (x1.set j xn1f) (y1.set j yn1f)

/-- One sample of `HilbertMain_filters`: run both 6-section chains on the
input sample; the result pair is `(yn1, yn2)`, written to
`buffer_streams[i]` and `buffer_streams[i+bufsize]`. After the first chain
the C variables satisfy `xn1 == yn1` (the loop ends with `xn1 = yn1`), so
the second chain's memory stores receive that common value. -/
def HilbertMain_filters_sample (coefs : List ℚ) (s : HilbertState) (x : ℚ) :
    HilbertState × ℚ × ℚ :=
  let r1 := hilbertChain1 coefs [0, 1, 2, 3, 4, 5] x s.x1 s.y1
  let r2 := hilbertChain2 coefs r1.1 r1.1 [6, 7, 8, 9, 10, 11] x r1.2.1 r1.2.2
  (⟨r2.2.1, r2.2.2⟩, r1.1, r2.1)

/-- An argument passed to a parameter setter: either a Python number or a
stream-bearing object (`PyNumber_Check` distinguishes the two). -/
inductive PyArg : Type
  | num (q : ℚ)
  | streamObj
  deriving Repr, DecidableEq

/-- The four specialized generate variants of TrigRand selected by
`TrigRand_setProcMode` from `procmode = modebuffer[2] + modebuffer[3]*10`. -/
inductive GenVariant : Type
  | ii
  | ai
  | ia
  | aa
  deriving Repr, DecidableEq

/-- Control-rate state of a TrigRand object: the bound `min`/`max`
arguments, the four mode flags, the selected compute variant
(`proc_func_ptr`), and the output buffer (untouched by setters). -/
structure TrigRandObj where
  min : PyArg
  max : PyArg
  mb0 : ℕ
  mb1 : ℕ
  mb2 : ℕ
  mb3 : ℕ
  variant : GenVariant
  data : List ℚ
  deriving Repr, DecidableEq

/-- `TrigRand_setProcMode`: rebind `proc_func_ptr` from
`procmode = modebuffer[2] + modebuffer[3]*10` (cases 0/1/10/11; any other
value leaves the pointer unchanged, as the C switch has no default). Only
the function pointer is written: no sample is computed. -/
def TrigRand_setProcMode (s : TrigRandObj) : TrigRandObj :=
  let procmode := s.mb2 + s.mb3 * 10
  { s with variant :=
      if procmode = 0 then .ii
      else if procmode = 1 then .ai
      else if procmode = 10 then .ia
      else if procmode = 11 then .aa
      else s.variant }

/-- `TrigRand_setMin`: a number sets `modebuffer[2] = 0` and stores the
constant; a stream-bearing object sets `modebuffer[2] = 1`; then
`setProcMode` reselects the variant. -/
def TrigRand_setMin (arg : PyArg) (s : TrigRandObj) : TrigRandObj :=
  TrigRand_setProcMode <|
    match arg with
    | .num q => { s with min := .num q, mb2 := 0 }
    | .streamObj => { s with min := .streamObj, mb2 := 1 }

/-- `TrigRand_setMax`: as `TrigRand_setMin` but for `modebuffer[3]`. -/
def TrigRand_setMax (arg : PyArg) (s : TrigRandObj) : TrigRandObj :=
  TrigRand_setProcMode <|
    match arg with
    | .num q => { s with max := .num q, mb3 := 0 }
    | .streamObj => { s with max := .streamObj, mb3 := 1 }

/-- An argument passed to `TrigChoice_setChoice`: a Python list of floats
or anything else (`PyList_Check` fails). -/
inductive ChoiceArg : Type
  | list (l : List ℚ)
  | nonlist
  deriving Repr, DecidableEq

/-- Control-rate state of a TrigChoice object: the choice table and its
size, plus the ramp state and output buffer the audio loop uses. -/
structure TrigChoiceObj where
  chSize : ℕ
  choice : List ℚ
  ramp : RampState
  data : List ℚ
  deriving Repr, DecidableEq

/-- `TrigChoice_setChoice`: a non-list argument raises a TypeError
(returned here as the Bool flag) and performs no state change; a list
replaces the table and its size. -/
def TrigChoice_setChoice (arg : ChoiceArg) (s : TrigChoiceObj) :
    TrigChoiceObj × Bool :=
  match arg with
  | .nonlist => (s, true)
  | .list l => ({ s with chSize := l.length, choice := l }, false)

/-- Modelled from the spec: the ping-pong boundary policy as the spec words
it — "when a forward step would exceed max, reverse direction and decrement
once in the same tick; symmetric at min". Used only to compare against the
source-derived `counterTrig`. -/
def counterPingPongSpec (cmin cmax : ℤ) (s : CounterState) : CounterState × ℤ :=
  let t := s.tmp + s.direction
  if t > cmax then (⟨s.tmp - 1, -1⟩, s.tmp)
  else if t < cmin then (⟨s.tmp + 1, 1⟩, s.tmp)
  else (⟨t, s.direction⟩, s.tmp)

/-- C2: in `HilbertMain_filters`, the second chain's memory update stores
the first chain's variables (`x1[j] = xn1; y1[j] = yn1;`) instead of its
own (`xn2`/`yn2`). Evaluated at the failing input: all 12 coefficients
`1/2`, zeroed memories, input sample `1`. Section 6's current input is the
input sample `1` and its current output is `1/2 * (1 - 0) + 0 = 1/2`, yet
after the call both `x1[6]` and `y1[6]` hold `1/64`, the first chain's
final output — contradicting the claim that each section's memories hold
that section's own current input and output. -/
theorem hilbertSecondChainMemoryBug :
    (HilbertMain_filters_sample (List.replicate 12 (1/2))
        ⟨List.replicate 12 0, List.replicate 12 0⟩ 1).1.x1.getD 6 0 = 1/64 ∧
    (HilbertMain_filters_sample (List.replicate 12 (1/2))
        ⟨List.replicate 12 0, List.replicate 12 0⟩ 1).1.y1.getD 6 0 = 1/64 ∧
    (1/2 : ℚ) * (1 - 0) + 0 = 1/2 ∧ (1/64 : ℚ) ≠ 1 ∧ (1/64 : ℚ) ≠ 1/2 := by
  norm_num [HilbertMain_filters_sample, hilbertChain1, hilbertChain2,
    List.replicate, List.set, List.getD, List.get?]

/-- C3 counterexample: streaming-threshold variant, mode "both" (dir = 2).
With threshold stream constantly `0` and input constantly `1/2` (which
stays above threshold), the detector pulses on BOTH samples: the
unconditional `self->ready = 1;` re-arms the latch every iteration, so the
one-shot property fails for this mode/variant combination. -/
theorem threshBothStreamingDoublePulse :
    (Thresh_generates_a 2 true [(1/2, 0), (1/2, 0)]).2 = [1, 1] ∧
    (1/2 : ℚ) > 0 := by
  norm_num [Thresh_generates_a, runGen, threshSampleA]

/-- C4 counterexample: ping-pong mode with `min = 0`, `max = 2`, at the
state `tmp = 1`, `direction = 1` (reached from the initial state by one
trigger). The forward step lands exactly on `max` — it would not exceed it
— yet the code reverses and decrements (`tmp >= max`), so `max` is never
reached; the spec-worded policy would advance to `2` without reversing. -/
theorem counterPingPongReversalCounterexample :
    counterTrig 0 2 2 ⟨1, 1⟩ = (⟨1, -1⟩, 1) ∧
    counterPingPongSpec 0 2 ⟨1, 1⟩ = (⟨2, 1⟩, 1) ∧
    (1 : ℤ) + 1 ≤ 2 ∧
    counterTrig 0 2 0 ⟨0, 1⟩ = (⟨1, 1⟩, 0) := by
  refine ⟨?_, ?_, by norm_num, ?_⟩ <;> decide

/-- C8: `TrigChoice_setChoice` with a non-list argument reports the error
and is a perfect no-op — the returned state is the argument state itself,
so the choice table, the ramp state and the output buffer are unchanged and
the running audio computation proceeds exactly as before; with a list
argument it replaces the table and its size. -/
theorem trigChoiceSetChoiceAtomic (s : TrigChoiceObj) (l : List ℚ) :
    TrigChoice_setChoice .nonlist s = (s, true) ∧
    (TrigChoice_setChoice .nonlist s).1.choice = s.choice ∧
    (TrigChoice_setChoice .nonlist s).1.chSize = s.chSize ∧
    (TrigChoice_setChoice .nonlist s).1.ramp = s.ramp ∧
    (TrigChoice_setChoice .nonlist s).1.data = s.data ∧
    (TrigChoice_setChoice (.list l) s).1.choice = l ∧
    (TrigChoice_setChoice (.list l) s).1.chSize = l.length := by
  simp [TrigChoice_setChoice]

/-- C7: TrigRand parameter round-trip. Setting `min` to a number clears
`modebuffer[2]` and selects a constant-min variant (`ii`/`ia` according to
the max flag); setting it to a stream-bearing object sets the flag and
selects a stream-min variant (`ai`/`aa`); constant → stream → constant
restores the flags and the compute variant of the first constant state,
and no setter call touches the output buffer (no sample computation).
The same holds for `max` with `modebuffer[3]`. -/
theorem trigRandSetMinRoundTrip (s : TrigRandObj) (q1 q2 : ℚ)
    (h2 : s.mb2 = 0 ∨ s.mb2 = 1) (h3 : s.mb3 = 0 ∨ s.mb3 = 1) :
    ((TrigRand_setMin (.num q1) s).mb2 = 0 ∧
      (TrigRand_setMin (.num q1) s).variant
        = (if s.mb3 = 0 then GenVariant.ii else GenVariant.ia) ∧
      (TrigRand_setMin .streamObj (TrigRand_setMin (.num q1) s)).mb2 = 1 ∧
      (TrigRand_setMin .streamObj (TrigRand_setMin (.num q1) s)).variant
        = (if s.mb3 = 0 then GenVariant.ai else GenVariant.aa) ∧
      (TrigRand_setMin (.num q2) (TrigRand_setMin .streamObj
          (TrigRand_setMin (.num q1) s))).mb2 = 0 ∧
      (TrigRand_setMin (.num q2) (TrigRand_setMin .streamObj
          (TrigRand_setMin (.num q1) s))).mb3
        = (TrigRand_setMin (.num q1) s).mb3 ∧
      (TrigRand_setMin (.num q2) (TrigRand_setMin .streamObj
          (TrigRand_setMin (.num q1) s))).variant
        = (TrigRand_setMin (.num q1) s).variant ∧
      (TrigRand_setMin (.num q2) (TrigRand_setMin .streamObj
          (TrigRand_setMin (.num q1) s))).data = s.data) ∧
    ((TrigRand_setMax (.num q1) s).mb3 = 0 ∧
      (TrigRand_setMax (.num q1) s).variant
        = (if s.mb2 = 0 then GenVariant.ii else GenVariant.ai) ∧
      (TrigRand_setMax .streamObj (TrigRand_setMax (.num q1) s)).mb3 = 1 ∧
      (TrigRand_setMax .streamObj (TrigRand_setMax (.num q1) s)).variant
        = (if s.mb2 = 0 then GenVariant.ia else GenVariant.aa) ∧
      (TrigRand_setMax (.num q2) (TrigRand_setMax .streamObj
          (TrigRand_setMax (.num q1) s))).mb3 = 0 ∧
      (TrigRand_setMax (.num q2) (TrigRand_setMax .streamObj
          (TrigRand_setMax (.num q1) s))).variant
        = (TrigRand_setMax (.num q1) s).variant ∧
      (TrigRand_setMax (.num q2) (TrigRand_setMax .streamObj
          (TrigRand_setMax (.num q1) s))).data = s.data) := by
  rcases h2 with h2 | h2 <;> rcases h3 with h3 | h3 <;>
    simp [TrigRand_setMin, TrigRand_setMax, TrigRand_setProcMode, h2, h3]

/-- Witness for the C7 theorem at a concrete object state. -/
theorem trigRandSetMinRoundTripWitness :
    (TrigRand_setMin (.num 3) (TrigRand_setMin .streamObj
        (TrigRand_setMin (.num 2)
          ⟨.num 0, .num 1, 0, 0, 0, 1, GenVariant.ia, [7]⟩))).variant
      = (TrigRand_setMin (.num 2)
          ⟨.num 0, .num 1, 0, 0, 0, 1, GenVariant.ia, [7]⟩).variant := by
  exact (trigRandSetMinRoundTrip
    ⟨.num 0, .num 1, 0, 0, 0, 1, GenVariant.ia, [7]⟩ 2 3
    (Or.inl rfl) (Or.inr rfl)).1.2.2.2.2.2.2.1

/-- Closed-form state of the ramp machinery `k ≥ 1` samples after a trigger
that set target `v` from old current value `c` with per-step increment `d`:
still gliding while `k < timeStep`, snapped to `v` afterwards. -/
def rampPostState (v c d : ℚ) (T : ℤ) (k : ℕ) (rest : List ℚ) : RampState :=
  ⟨v, if (k : ℤ) < T then c + (k : ℚ) * d else v, d, min (k : ℤ) T, rest⟩

theorem runGen_congr {σ α β : Type} {f g : σ → α → σ × β} {xs : List α}
    (h : ∀ s x, x ∈ xs → f s x = g s x) :
    ∀ s, runGen f s xs = runGen g s xs := by
  induction xs with
  | nil => intro s; rfl
  | cons x xs ih =>
    intro s
    have hx := h s x (by simp)
    simp only [runGen, hx, ih fun s y hy => h s y (by simp [hy])]

/-- The sample the ramp emits `m` samples after a trigger (trigger sample
included): still gliding while `m < timeStep`, the target afterwards. -/
def rampOut (v c d : ℚ) (T : ℤ) (m : ℕ) : ℚ :=
  if (m : ℤ) < T then c + (m : ℚ) * d else v

theorem trigRand_trigger_eq (time : ℚ) (T : ℤ) (mi ma a c sv : ℚ) (tc : ℤ)
    (u : ℚ) (rest : List ℚ) (htime : 0 < time) (hT : 1 ≤ T) :
    trigRandSample time T mi ma ⟨a, c, sv, tc, u :: rest⟩ 1 =
      (rampPostState ((ma - mi) * u + mi) c (((ma - mi) * u + mi - c) / (T : ℚ)) T 1 rest,
        rampOut ((ma - mi) * u + mi) c (((ma - mi) * u + mi - c) / (T : ℚ)) T 1) := by
  rcases eq_or_lt_of_le hT with hT1 | hT1
  · simp [trigRandSample, rampPostState, rampOut, not_le.2 htime, ← hT1]
  · have h0 : ¬(0 : ℤ) = T - 1 := by omega
    have h0' : (0 : ℤ) < T := by omega
    have hmin : min (1 : ℤ) T = 1 := by omega
    simp [trigRandSample, rampPostState, rampOut, not_le.2 htime, h0, h0', hmin, hT1]

theorem trigRand_silent_eq (time : ℚ) (T : ℤ) (mi ma v c d : ℚ) (k : ℕ)
    (rest : List ℚ) :
    trigRandSample time T mi ma (rampPostState v c d T k rest) 0 =
      (rampPostState v c d T (k + 1) rest, rampOut v c d T (k + 1)) := by
  have e0 : ¬(0 : ℚ) = 1 := by norm_num
  rcases lt_trichotomy ((k : ℤ) + 1) T with h | h | h
  · have e1 : min (k : ℤ) T = (k : ℤ) := by omega
    have e2 : ¬(k : ℤ) = T - 1 := by omega
    have e3 : (k : ℤ) < T := by omega
    have e4 : min ((k : ℤ) + 1) T = (k : ℤ) + 1 := by omega
    simp only [trigRandSample, rampPostState, rampOut, e1, if_neg e0, if_neg e2,
      if_pos e3, Nat.cast_add, Nat.cast_one, if_pos h, e4]
    have e5 : c + (k : ℚ) * d + d = c + ((k : ℚ) + 1) * d := by ring
    rw [e5]
  · have e1 : min (k : ℤ) T = (k : ℤ) := by omega
    have e2 : (k : ℤ) = T - 1 := by omega
    have e3 : ¬((k : ℤ) + 1) < T := by omega
    have e4 : min ((k : ℤ) + 1) T = (k : ℤ) + 1 := by omega
    simp only [trigRandSample, rampPostState, rampOut, e1, if_neg e0, if_pos e2,
      Nat.cast_add, Nat.cast_one, if_neg e3, e4]
  · have e1 : min (k : ℤ) T = T := by omega
    have e2 : ¬(T : ℤ) = T - 1 := by omega
    have e3 : ¬(T : ℤ) < T := by omega
    have e4 : ¬(k : ℤ) < T := by omega
    have e5 : ¬((k : ℤ) + 1) < T := by omega
    have e6 : min ((k : ℤ) + 1) T = T := by omega
    simp only [trigRandSample, rampPostState, rampOut, e1, if_neg e0, if_neg e2,
      if_neg e3, if_neg e4, Nat.cast_add, Nat.cast_one, if_neg e5, if_false, e6]

theorem trigRand_silent_run (time : ℚ) (T : ℤ) (mi ma v c d : ℚ)
    (rest : List ℚ) (j : ℕ) :
    ∀ k : ℕ,
      runGen (trigRandSample time T mi ma) (rampPostState v c d T k rest)
        (List.replicate j 0) =
      (rampPostState v c d T (k + j) rest,
        (List.range j).map fun i => rampOut v c d T (k + i + 1)) := by
  induction j with
  | zero => intro k; simp [runGen]
  | succ j ih =>
    intro k
    rw [List.replicate_succ, List.range_succ_eq_map]
    simp only [runGen, trigRand_silent_eq time T mi ma v c d k rest, ih (k + 1),
      List.map_cons, List.map_map, Prod.mk.injEq, List.cons.injEq]
    have ek : k + 1 + j = k + (j + 1) := by omega
    have e0 : k + 0 + 1 = k + 1 := by omega
    rw [ek, e0]
    refine ⟨by trivial, by trivial, ?_⟩
    congr 1
    funext i
    simp only [Function.comp_apply]
    congr 1
    omega

theorem runGen_fixed {σ α β : Type} (f : σ → α → σ × β) (s : σ) (x : α) (b : β)
    (h : f s x = (s, b)) (j : ℕ) :
    runGen f s (List.replicate j x) = (s, List.replicate j b) := by
  induction j with
  | zero => simp [runGen]
  | succ j ih => rw [List.replicate_succ, List.replicate_succ]; simp [runGen, h, ih]

theorem trigChoice_silent_eq_trigRand (time : ℚ) (T : ℤ) (choice : List ℚ)
    (mi ma : ℚ) (s : RampState) :
    trigChoiceSample time T choice s 0 = trigRandSample time T mi ma s 0 := by
  have e0 : ¬(0 : ℚ) = 1 := by norm_num
  simp [trigChoiceSample, trigRandSample, e0]

theorem trigChoice_trigger_eq (time : ℚ) (T : ℤ) (choice : List ℚ) (a c sv : ℚ)
    (tc : ℤ) (u : ℚ) (rest : List ℚ) (htime : 0 < time) (hT : 1 ≤ T) :
    trigChoiceSample time T choice ⟨a, c, sv, tc, u :: rest⟩ 1 =
      (rampPostState (choice.getD (ctrunc (u * (choice.length : ℚ))).toNat 0) c
        ((choice.getD (ctrunc (u * (choice.length : ℚ))).toNat 0 - c) / (T : ℚ)) T 1 rest,
       rampOut (choice.getD (ctrunc (u * (choice.length : ℚ))).toNat 0) c
        ((choice.getD (ctrunc (u * (choice.length : ℚ))).toNat 0 - c) / (T : ℚ)) T 1) := by
  rcases eq_or_lt_of_le hT with hT1 | hT1
  · simp [trigChoiceSample, rampPostState, rampOut, not_le.2 htime, ← hT1]
  · have h0 : ¬(0 : ℤ) = T - 1 := by omega
    have h0' : (0 : ℤ) < T := by omega
    have hmin : min (1 : ℤ) T = 1 := by omega
    simp [trigChoiceSample, rampPostState, rampOut, not_le.2 htime, h0, h0', hmin, hT1]

theorem trigRand_block_run (time : ℚ) (T : ℤ) (mi ma a c sv : ℚ) (tc : ℤ)
    (u : ℚ) (rest : List ℚ) (j : ℕ) (htime : 0 < time) (hT : 1 ≤ T) :
    (TrigRand_generate_ii time T mi ma ⟨a, c, sv, tc, u :: rest⟩
        (1 :: List.replicate j 0)).2 =
      (List.range (j + 1)).map fun i =>
        rampOut ((ma - mi) * u + mi) c (((ma - mi) * u + mi - c) / (T : ℚ)) T (i + 1) := by
  rw [List.range_succ_eq_map]
  simp only [TrigRand_generate_ii, runGen,
    trigRand_trigger_eq time T mi ma a c sv tc u rest htime hT,
    trigRand_silent_run time T mi ma _ c _ rest j 1,
    List.map_cons, List.map_map]
  simp only [zero_add]
  refine congrArg (fun t => _ :: t) (List.map_congr_left fun i hi => ?_)
  simp only [Function.comp_apply]
  congr 1
  omega

theorem trigChoice_block_run (time : ℚ) (T : ℤ) (choice : List ℚ) (a c sv : ℚ)
    (tc : ℤ) (u : ℚ) (rest : List ℚ) (j : ℕ) (htime : 0 < time) (hT : 1 ≤ T) :
    (runGen (trigChoiceSample time T choice) ⟨a, c, sv, tc, u :: rest⟩
        (1 :: List.replicate j 0)).2 =
      (List.range (j + 1)).map fun i =>
        rampOut (choice.getD (ctrunc (u * (choice.length : ℚ))).toNat 0) c
          ((choice.getD (ctrunc (u * (choice.length : ℚ))).toNat 0 - c) / (T : ℚ)) T (i + 1) := by
  rw [List.range_succ_eq_map]
  simp only [runGen, trigChoice_trigger_eq time T choice a c sv tc u rest htime hT]
  rw [runGen_congr (g := trigRandSample time T 0 1)
      (fun s x hx => by
        rw [List.eq_of_mem_replicate hx]
        exact trigChoice_silent_eq_trigRand time T choice 0 1 s)]
  simp only [trigRand_silent_run time T 0 1 _ c _ rest j 1,
    List.map_cons, List.map_map]
  simp only [zero_add]
  refine congrArg (fun t => _ :: t) (List.map_congr_left fun i hi => ?_)
  simp only [Function.comp_apply]
  congr 1
  omega

/-- C1 (amended): the glide rule as the code implements it. TrigRand and
TrigChoice share the ramp: the step count is `timeStep = (int)(p*sr)`
(truncation, not rounding); on a trigger with `p > 0` and `timeStep ≥ 1`
the block output follows `rampOut`, reaching the target exactly at the
`timeStep`-th sample counting the trigger sample (conjunct (iv)), moving in
equal steps of `(target - old)/timeStep` (v) monotonically between the old
value and the target (vi); with `p ≤ 0` the output snaps to the freshly
drawn target on the trigger sample itself (ii); with `p > 0` but
`(int)(p*sr) = 0` the output never moves at all (vii); TrigChoice's
non-trigger step is the identical ramp function (viii) and its block
follows the same closed form (ix); the TrigXnoise family has no ramp: the
drawn value is emitted already on the trigger sample (x). -/
theorem trigGlideRule (time sr : ℚ) (T : ℤ) (mi ma a c sv : ℚ) (tc : ℤ)
    (u : ℚ) (rest : List ℚ) (j : ℕ) (choice : List ℚ) :
    (T = timeStepOf time sr → 0 < sr → time ≤ 0 → T ≤ 0) ∧
    (time ≤ 0 → T ≤ 0 →
      (trigRandSample time T mi ma ⟨a, c, sv, tc, u :: rest⟩ 1).2
        = (ma - mi) * u + mi) ∧
    (0 < time → 1 ≤ T →
      (TrigRand_generate_ii time T mi ma ⟨a, c, sv, tc, u :: rest⟩
          (1 :: List.replicate j 0)).2 =
        (List.range (j + 1)).map fun i =>
          rampOut ((ma - mi) * u + mi) c (((ma - mi) * u + mi - c) / (T : ℚ)) T (i + 1)) ∧
    (∀ v c' d : ℚ, ∀ m : ℕ, T ≤ (m : ℤ) → rampOut v c' d T m = v) ∧
    (∀ v c' : ℚ, ∀ m : ℕ, 1 ≤ T → ((m : ℤ) + 1) ≤ T →
      rampOut v c' ((v - c') / (T : ℚ)) T (m + 1)
        - rampOut v c' ((v - c') / (T : ℚ)) T m = (v - c') / (T : ℚ)) ∧
    (∀ v c' : ℚ, ∀ m : ℕ, 1 ≤ T →
      min c' v ≤ rampOut v c' ((v - c') / (T : ℚ)) T m ∧
      rampOut v c' ((v - c') / (T : ℚ)) T m ≤ max c' v) ∧
    (0 < time → T = 0 →
      (TrigRand_generate_ii time T mi ma ⟨a, c, sv, tc, u :: rest⟩
          (1 :: List.replicate j 0)).2 = c :: List.replicate j c) ∧
    (∀ s : RampState,
      trigChoiceSample time T choice s 0 = trigRandSample time T mi ma s 0) ∧
    (0 < time → 1 ≤ T →
      (runGen (trigChoiceSample time T choice) ⟨a, c, sv, tc, u :: rest⟩
          (1 :: List.replicate j 0)).2 =
        (List.range (j + 1)).map fun i =>
          rampOut (choice.getD (ctrunc (u * (choice.length : ℚ))).toNat 0) c
            ((choice.getD (ctrunc (u * (choice.length : ℚ))).toNat 0 - c) / (T : ℚ))
            T (i + 1)) ∧
    (∀ (f : LoopsegState → LoopsegState × ℚ) (st : XnoiseState LoopsegState),
      (trigXnoiseSample f st 1).2 = (f st.dist).2) := by
  refine ⟨?_, ?_, ?_, ?_, ?_, ?_, ?_, ?_, ?_, ?_⟩
  · intro hTdef hsr htime
    subst hTdef
    have hq : time * sr ≤ 0 := mul_nonpos_of_nonpos_of_nonneg htime hsr.le
    unfold timeStepOf ctrunc
    split_ifs with h
    · have : time * sr = 0 := le_antisymm hq h
      simp [this]
    · have h2 : (0 : ℚ) ≤ -(time * sr) := by linarith
      have := Int.floor_nonneg.2 h2
      omega
  · intro htime hT
    have e1 : ¬(0 : ℤ) = T - 1 := by omega
    have e2 : ¬(0 : ℤ) < T := by omega
    simp [trigRandSample, htime, e1, e2]
  · intro htime hT
    exact trigRand_block_run time T mi ma a c sv tc u rest j htime hT
  · intro v c' d m hm
    simp [rampOut, not_lt.2 hm]
  · intro v c' m hT hm
    have hT0 : (T : ℚ) ≠ 0 := by
      exact_mod_cast (by omega : T ≠ 0)
    rcases eq_or_lt_of_le hm with he | hlt
    · have e1 : ¬((m : ℤ) + 1) < T := by omega
      have e2 : (m : ℤ) < T := by omega
      simp only [rampOut, Nat.cast_add, Nat.cast_one, if_neg e1, if_pos e2]
      have hmT : (m : ℚ) = (T : ℚ) - 1 := by
        have hmZ : (m : ℤ) = T - 1 := by omega
        have h9 := congrArg (fun z : ℤ => (z : ℚ)) hmZ
        push_cast at h9
        exact h9
      rw [hmT]
      field_simp
      ring
    · have e1 : ((m : ℤ) + 1) < T := hlt
      have e2 : (m : ℤ) < T := by omega
      simp only [rampOut, Nat.cast_add, Nat.cast_one, if_pos e1, if_pos e2]
      ring
  · intro v c' m hT
    have hTq : (0 : ℚ) < (T : ℚ) := by exact_mod_cast (by omega : (0 : ℤ) < T)
    unfold rampOut
    split_ifs with h
    · have hm0 : (0 : ℚ) ≤ (m : ℚ) := by positivity
      have hmT : (m : ℚ) ≤ (T : ℚ) := by
        have : (m : ℤ) ≤ T := le_of_lt h
        exact_mod_cast this
      have hkey : (T : ℚ) * ((v - c') / (T : ℚ)) = v - c' := by
        field_simp
      rcases le_total c' v with hcv | hcv
      · have hX : 0 ≤ (v - c') / (T : ℚ) := div_nonneg (by linarith) hTq.le
        have h2 : (m : ℚ) * ((v - c') / (T : ℚ))
            ≤ (T : ℚ) * ((v - c') / (T : ℚ)) := mul_le_mul_of_nonneg_right hmT hX
        have h1 : 0 ≤ (m : ℚ) * ((v - c') / (T : ℚ)) := mul_nonneg hm0 hX
        rw [min_eq_left hcv, max_eq_right hcv]
        constructor
        · linarith
        · linarith
      · have h8 : 0 ≤ (c' - v) / (T : ℚ) := div_nonneg (by linarith) hTq.le
        have h9 : (v - c') / (T : ℚ) = -((c' - v) / (T : ℚ)) := by ring
        have hX : (v - c') / (T : ℚ) ≤ 0 := by rw [h9]; linarith
        have h2 : (T : ℚ) * ((v - c') / (T : ℚ))
            ≤ (m : ℚ) * ((v - c') / (T : ℚ)) := mul_le_mul_of_nonpos_right hmT hX
        have h1 : (m : ℚ) * ((v - c') / (T : ℚ)) ≤ 0 := mul_nonpos_of_nonneg_of_nonpos hm0 hX
        rw [min_eq_right hcv, max_eq_left hcv]
        constructor
        · linarith
        · linarith
    · simp [min_le_right, le_max_right]
  · intro htime hT0
    subst hT0
    have e0 : ¬(0 : ℚ) = 1 := by norm_num
    have step : ∀ s : RampState, s.timeCount = 0 →
        trigRandSample time 0 mi ma s 0 = (s, s.currentValue) := by
      intro s hs
      have e1 : ¬s.timeCount = (-1 : ℤ) := by omega
      have e2 : ¬s.timeCount < 0 := by omega
      simp [trigRandSample, e0, e1, e2]
    simp only [TrigRand_generate_ii, runGen]
    have trig :
        trigRandSample time 0 mi ma ⟨a, c, sv, tc, u :: rest⟩ 1 =
          (⟨(ma - mi) * u + mi, c, ((ma - mi) * u + mi - c) / ((0 : ℤ) : ℚ), 0, rest⟩, c) := by
      have e1 : ¬(0 : ℤ) = 0 - 1 := by omega
      simp [trigRandSample, not_le.2 htime, e1]
    rw [trig]
    rw [runGen_fixed _ _ _ c (step _ rfl) j]
  · intro s
    exact trigChoice_silent_eq_trigRand time T choice mi ma s
  · intro htime hT
    exact trigChoice_block_run time T choice a c sv tc u rest j htime hT
  · intro f st
    simp [trigXnoiseSample]

/-- C1 counterexample: with sample rate 10 and port time p = 0.29,
`round(p*sr) = round(2.9) = 3`, but the code's step count is the truncation
`(int)(2.9) = 2`: gliding from 0 to target 1 the block emits 1/2 already on
the trigger sample and reaches the target on the next sample, where the
claim demands equal steps of `(1-0)/3` with arrival only after 3 samples. -/
theorem trigGlideRoundCounterexample :
    timeStepOf (29/100) 10 = 2 ∧
    ⌊(29/100 : ℚ) * 10 + 1/2⌋ = 3 ∧
    (TrigRand_generate_ii (29/100) (timeStepOf (29/100) 10) 0 1 ⟨0, 0, 0, 99, [1]⟩
        [1, 0, 0]).2 = [1/2, 1, 1] ∧
    (1/2 : ℚ) ≠ 0 + (1 - 0) / 3 := by
  refine ⟨?_, ?_, ?_, by norm_num⟩
  · norm_num [timeStepOf, ctrunc]
  · norm_num
  · norm_num [timeStepOf, ctrunc, TrigRand_generate_ii, runGen, trigRandSample]

/-- Witness for the C1 theorem: a TrigRand glide with port 1/2 s at
timeStep 5 from 0 to the drawn target 1 emits 1/5, 2/5, 3/5, 4/5, 1, 1. -/
theorem trigGlideRuleWitness :
    (TrigRand_generate_ii (1/2) 5 0 1 ⟨0, 0, 0, 99, [1]⟩
        (1 :: List.replicate 5 0)).2 = [1/5, 2/5, 3/5, 4/5, 1, 1] := by
  have h := (trigGlideRule (1/2) 10 5 0 1 0 0 0 99 1 [] 5 []).2.2.1
    (by norm_num) (by norm_num)
  rw [h]
  norm_num [rampOut, List.range_succ]

theorem writeData_shift {σ α : Type} (f : σ → α → σ × ℚ) (xs : List α) :
    ∀ (i : ℕ) (e : ℚ) (d : List ℚ) (s : σ),
      writeData f s xs (i + 1) (e :: d) =
        ((writeData f s xs i d).1, e :: (writeData f s xs i d).2) := by
  induction xs with
  | nil => intro i e d s; rfl
  | cons x xs ih =>
    intro i e d s
    show writeData f (f s x).1 xs (i + 1 + 1) ((e :: d).set (i + 1) (f s x).2) = _
    rw [List.set_cons_succ, ih (i + 1) e (d.set i (f s x).2) (f s x).1]
    rfl

theorem writeData_eq_runGen {σ α : Type} (f : σ → α → σ × ℚ) :
    ∀ (xs : List α) (s : σ) (d : List ℚ), xs.length ≤ d.length →
      writeData f s xs 0 d =
        ((runGen f s xs).1, (runGen f s xs).2 ++ d.drop xs.length) := by
  intro xs
  induction xs with
  | nil => intro s d _; simp [writeData, runGen]
  | cons x xs ih =>
    intro s d h
    cases d with
    | nil => simp at h
    | cons e d =>
      show writeData f (f s x).1 xs 1 ((e :: d).set 0 (f s x).2) = _
      rw [List.set_cons_zero, writeData_shift f xs 0 (f s x).2 d (f s x).1,
        ih (f s x).1 d (by simpa using h)]
      simp [runGen]

/-- C9 (amended): every modelled per-block generate loop — an instance of
`writeData`, which executes the body and stores `data[i]` once per
iteration — fully overwrites its output buffer: when the buffer length
matches the block length the resulting buffer is independent of the
previous block's contents (first conjunct), and equals the fresh-output
run (second conjunct, instantiated at `TrigRand_generate_ii`). The
exception is TrigFunc: its loop never writes `self->data`, so the buffer
survives verbatim (third conjunct). -/
theorem fullOverwrite (time : ℚ) (T : ℤ) (mi ma : ℚ) (s : RampState)
    (xs : List ℚ) (d1 : List ℚ) (calls : ℕ) :
    (∀ (σ α : Type) (f : σ → α → σ × ℚ) (st : σ) (ins : List α)
        (e1 e2 : List ℚ), e1.length = ins.length → e2.length = ins.length →
      (writeData f st ins 0 e1).2 = (writeData f st ins 0 e2).2) ∧
    (d1.length = xs.length →
      (writeData (trigRandSample time T mi ma) s xs 0 d1).2
        = (TrigRand_generate_ii time T mi ma s xs).2) ∧
    (∀ (ins d : List ℚ), (TrigFunc_generate calls ins d).2 = d) := by
  have tf : ∀ (ins : List ℚ) (c : ℕ) (d : List ℚ), (TrigFunc_generate c ins d).2 = d := by
    intro ins
    induction ins with
    | nil => intro c d; rfl
    | cons x ins ih => intro c d; simp only [TrigFunc_generate]; exact ih _ d
  refine ⟨?_, ?_, ?_⟩
  · intro σ α f st ins e1 e2 h1 h2
    rw [writeData_eq_runGen f ins st e1 h1.ge, writeData_eq_runGen f ins st e2 h2.ge,
      List.drop_eq_nil_of_le h1.le, List.drop_eq_nil_of_le h2.le]
  · intro h
    rw [writeData_eq_runGen _ xs s d1 h.ge, List.drop_eq_nil_of_le h.le]
    simp [TrigRand_generate_ii]
  · intro ins d
    exact tf ins calls d

/-- C9 counterexample: TrigFunc's compute step does not overwrite the
output buffer — two different previous buffers survive unchanged through
the same invocation, so stale samples leak between blocks. -/
theorem trigFuncNoOverwriteCounterexample :
    (TrigFunc_generate 0 [1] [5]).2 = [5] ∧
    (TrigFunc_generate 0 [1] [7]).2 = [7] ∧
    ([5] : List ℚ) ≠ [7] := by
  refine ⟨rfl, rfl, by norm_num⟩

/-- Witness for the C9 theorem: a two-sample TrigRand block writes both
slots of a buffer previously holding 5 and 6. -/
theorem fullOverwriteWitness :
    (writeData (trigRandSample 0 0 0 1) ⟨0, 0, 0, 0, []⟩ [0, 0] 0 [5, 6]).2
      = (TrigRand_generate_ii 0 0 0 1 ⟨0, 0, 0, 0, []⟩ [0, 0]).2 := by
  exact (fullOverwrite 0 0 0 1 ⟨0, 0, 0, 0, []⟩ [0, 0] [5, 6] 0).2.1 rfl

/-- Safety invariant of a TrigEnv reader: whenever the reader is active,
its increment is nonnegative and the read position lies in `[0, size]`. -/
def TrigEnvInv (size : ℕ) (s : TrigEnvState) : Prop :=
  s.active = true → 0 ≤ s.inc ∧ 0 ≤ s.pointerPos ∧ s.pointerPos ≤ (size : ℚ)

theorem ctrunc_nonneg_bounds (p : ℚ) (size : ℕ) (h0 : 0 ≤ p) (h1 : p ≤ (size : ℚ)) :
    0 ≤ ctrunc p ∧ ctrunc p ≤ (size : ℤ) := by
  unfold ctrunc
  rw [if_pos h0]
  constructor
  · exact Int.floor_nonneg.mpr h0
  · have := Int.floor_le_floor h1
    rwa [Int.floor_natCast] at this

theorem trigEnvRead_inv (size : ℕ) (table : List ℚ) (s1 : TrigEnvState)
    (h1 : TrigEnvInv size s1) :
    TrigEnvInv size (trigEnvRead size table s1).1 ∧
    (∀ i1 i2 : ℤ, (trigEnvRead size table s1).2.2.2 = some (i1, i2) →
      0 ≤ i1 ∧ i1 ≤ (size : ℤ) ∧ i2 = i1 + 1) := by
  obtain ⟨act, cd, inc, pos⟩ := s1
  by_cases hact : act = true
  · subst hact
    obtain ⟨hi, hp0, hp1⟩ := h1 rfl
    obtain ⟨hb0, hb1⟩ := ctrunc_nonneg_bounds pos size hp0 hp1
    simp only [trigEnvRead, if_true]
    split_ifs with h2
    · refine ⟨by intro hc; simp at hc, ?_⟩
      intro i1 i2 heq
      simp only [Option.some.injEq, Prod.mk.injEq] at heq
      exact ⟨heq.1 ▸ hb0, heq.1 ▸ hb1, by omega⟩
    · have hle : pos + inc ≤ (size : ℚ) := by
        rcases not_and_or.mp h2 with h3 | h3
        · exact not_lt.mp fun hlt => h3 (by simpa using hlt)
        · simp at h3
      refine ⟨?_, ?_⟩
      · intro _
        exact ⟨hi, by dsimp only; linarith, by simpa using hle⟩
      · intro i1 i2 heq
        simp only [Option.some.injEq, Prod.mk.injEq] at heq
        exact ⟨heq.1 ▸ hb0, heq.1 ▸ hb1, by omega⟩
  · have hact' : act = false := by
      cases act
      · rfl
      · exact absurd rfl hact
    subst hact'
    simp only [trigEnvRead, Bool.false_eq_true, if_false, and_false]
    refine ⟨fun hc => by simp at hc, fun i1 i2 heq => by simp at heq⟩

theorem trigEnvSample_inv (sr : ℚ) (size : ℕ) (table : List ℚ) (dur : ℚ)
    (s : TrigEnvState) (x : ℚ) (hsr : 0 < sr) (hdur : 0 < dur)
    (hinv : TrigEnvInv size s) :
    TrigEnvInv size (trigEnvSample sr size table dur s x).1 ∧
    (∀ i1 i2 : ℤ, (trigEnvSample sr size table dur s x).2.2.2 = some (i1, i2) →
      0 ≤ i1 ∧ i1 ≤ (size : ℤ) ∧ i2 = i1 + 1) := by
  have hmul : 0 < sr * dur := mul_pos hsr hdur
  unfold trigEnvSample
  split_ifs with hx
  · refine trigEnvRead_inv size table _ ?_
    intro _
    exact ⟨div_nonneg (Nat.cast_nonneg size) hmul.le, le_refl 0, Nat.cast_nonneg size⟩
  · exact trigEnvRead_inv size table s hinv

/-- C10 (amended): for positive sample rate and positive durations, a
TrigEnv reader started from the constructor state (inactive, position 0,
arbitrary residual `inc`) keeps, while active, `0 ≤ pointerPos ≤ size`; so
every table access while active uses `ipart ∈ [0, size]` and reads the pair
`(ipart, ipart+1)` — the interpolation may touch index `size` (one past the
claim's `[0, N-1]`) and, when `pointerPos` lands exactly on `size`, also
index `size + 1`, because deactivation (`pointerPos > size`) is tested only
after the read. Conjuncts: the constructor state satisfies the invariant;
one sample preserves it and bounds the accessed indices; a whole block run
from an invariant state only performs accesses with
`0 ≤ ipart ≤ size` and `ipart+1 = ipart + 1`. -/
theorem trigEnvAccessBounds (sr : ℚ) (size : ℕ) (table : List ℚ) (dur : ℚ)
    (s : TrigEnvState) (x : ℚ) (ins : List ℚ) (g cd : ℚ)
    (hsr : 0 < sr) (hdur : 0 < dur) (hinv : TrigEnvInv size s) :
    TrigEnvInv size ⟨false, cd, g, 0⟩ ∧
    (TrigEnvInv size (trigEnvSample sr size table dur s x).1 ∧
      ∀ i1 i2 : ℤ, (trigEnvSample sr size table dur s x).2.2.2 = some (i1, i2) →
        0 ≤ i1 ∧ i1 ≤ (size : ℤ) ∧ i2 = i1 + 1) ∧
    (∀ n : ℕ, ∀ i1 i2 : ℤ,
      ((TrigEnv_readframes_i sr size table dur s ins).2.getD n (0, false, none)).2.2
          = some (i1, i2) →
        0 ≤ i1 ∧ i1 ≤ (size : ℤ) ∧ i2 = i1 + 1) := by
  refine ⟨fun hc => by simp at hc, trigEnvSample_inv sr size table dur s x hsr hdur hinv, ?_⟩
  unfold TrigEnv_readframes_i
  clear x
  induction ins generalizing s with
  | nil =>
    intro n i1 i2 heq
    simp [runGen] at heq
  | cons y ys ih =>
    intro n i1 i2 heq
    obtain ⟨hstep1, hstep2⟩ := trigEnvSample_inv sr size table dur s y hsr hdur hinv
    cases n with
    | zero =>
      simp only [runGen, List.getD_cons_zero] at heq
      exact hstep2 i1 i2 heq
    | succ n =>
      simp only [runGen, List.getD_cons_succ] at heq
      exact ih _ hstep1 n i1 i2 heq

/-- C10 counterexample: table size N = 4, sr = 4, dur = 1 (so inc = 1).
After the trigger the reader stays active through position 4 (the
deactivation test `pointerPos > size` fails at 4), so the fourth sample
reads indices (3, 4) — index N — and the fifth reads (4, 5) — indices N and
N+1 — refuting the claim that both indices stay within [0, N-1]. -/
theorem trigEnvIndexCounterexample :
    ((TrigEnv_readframes_i 4 4 [1, 1, 1, 1] 1 ⟨false, 4, 0, 0⟩
        [1, 0, 0, 0, 0]).2.getD 3 (0, false, none)).2.2 = some (3, 4) ∧
    ((TrigEnv_readframes_i 4 4 [1, 1, 1, 1] 1 ⟨false, 4, 0, 0⟩
        [1, 0, 0, 0, 0]).2.getD 4 (0, false, none)).2.2 = some (4, 5) ∧
    ¬((4 : ℤ) ≤ 4 - 1) := by
  refine ⟨?_, ?_, by norm_num⟩ <;>
    norm_num [TrigEnv_readframes_i, runGen, trigEnvSample, trigEnvRead, ctrunc,
      List.getD, List.get?]

/-- Witness for the C10 theorem: the first access of a concrete run is
within the amended bounds. -/
theorem trigEnvAccessBoundsWitness :
    (0 : ℤ) ≤ 0 ∧ (0 : ℤ) ≤ (4 : ℕ) ∧ (1 : ℤ) = 0 + 1 := by
  refine (trigEnvAccessBounds 4 4 [1, 1, 1, 1] 1 ⟨false, 4, 0, 0⟩ 0 [1, 0] 0 4
      (by norm_num) (by norm_num) (fun hc => by simp at hc)).2.2 0 0 1 ?_
  norm_num [TrigEnv_readframes_i, runGen, trigEnvSample, trigEnvRead, ctrunc,
    List.getD, List.get?]

theorem runGen_fixed_mem {σ α β : Type} (f : σ → α → σ × β) (s : σ) (b : β) :
    ∀ xs : List α, (∀ x ∈ xs, f s x = (s, b)) →
      runGen f s xs = (s, List.replicate xs.length b) := by
  intro xs
  induction xs with
  | nil => intro _; rfl
  | cons x xs ih =>
    intro h
    simp only [runGen, h x (by simp), ih fun y hy => h y (by simp [hy]),
      List.length_cons, List.replicate_succ]

/-- C3 (amended): the one-shot latch behaviour of Thresh. Conjuncts:
(1)–(3) rising mode (dir 0), constant threshold: while the input stays
above the threshold a fired (ready = false) detector emits only zeros and
stays fired; a pulse always clears `ready`; the latch re-arms only when the
input comes back at or below the threshold. (4) falling mode and (5) both
mode behave symmetrically for the constant-threshold variant, and (6)–(7)
the streaming-threshold variant latches for dir 0 and dir 1. (8) a step
input that stays at or below the threshold and then above it yields exactly
one 1.0, at the crossing index. (9) an input exactly equal to the
threshold never pulses in rising mode, in either variant. The dir-2
streaming variant is excluded: it re-arms unconditionally every sample
(see the counterexample). -/
theorem threshLatch (t : ℚ) (xs : List ℚ) (xts : List (ℚ × ℚ)) (r : Bool)
    (lows highs : List ℚ) :
    ((∀ x ∈ xs, x > t) →
      Thresh_generates_i 0 t false xs = (false, List.replicate xs.length 0)) ∧
    (∀ x, (threshSampleI 0 t r x).2 = 1 → (threshSampleI 0 t r x).1 = false) ∧
    (∀ x, (threshSampleI 0 t false x).1 = true → x ≤ t) ∧
    ((∀ x ∈ xs, x < t) →
      Thresh_generates_i 1 t false xs = (false, List.replicate xs.length 0)) ∧
    ((∀ x ∈ xs, x > t) →
      Thresh_generates_i 2 t false xs = (false, List.replicate xs.length 0)) ∧
    ((∀ p ∈ xts, p.1 > p.2) →
      Thresh_generates_a 0 false xts = (false, List.replicate xts.length 0)) ∧
    ((∀ p ∈ xts, p.1 < p.2) →
      Thresh_generates_a 1 false xts = (false, List.replicate xts.length 0)) ∧
    ((∀ x ∈ lows, x ≤ t) → (∀ x ∈ highs, x > t) → highs ≠ [] →
      (Thresh_generates_i 0 t true (lows ++ highs)).2
        = List.replicate lows.length 0 ++ 1 :: List.replicate (highs.length - 1) 0) ∧
    ((threshSampleI 0 t r t).2 = 0 ∧ (threshSampleA 0 r (t, t)).2 = 0) := by
  refine ⟨?_, ?_, ?_, ?_, ?_, ?_, ?_, ?_, ?_, ?_⟩
  · intro h
    exact runGen_fixed_mem _ _ _ xs fun x hx => by
      simp [threshSampleI, not_lt.2 (h x hx).le, (h x hx).le.not_lt, (h x hx).not_le]
  · intro x
    unfold threshSampleI
    norm_num
    split_ifs with h1 h2
    · intro _; rfl
    · intro h; exact absurd h (by norm_num)
    · intro h; exact absurd h (by norm_num)
  · intro x h
    by_cases hx : x ≤ t
    · exact hx
    · simp [threshSampleI, not_le.mp hx, hx] at h
  · intro h
    exact runGen_fixed_mem _ _ _ xs fun x hx => by
      simp [threshSampleI, (h x hx).not_le, not_le.2 (h x hx), (h x hx).le.not_lt]
  · intro h
    exact runGen_fixed_mem _ _ _ xs fun x hx => by
      simp [threshSampleI, not_lt.2 (h x hx).le, (h x hx).le.not_lt, (h x hx).not_le]
  · intro h
    exact runGen_fixed_mem _ _ _ xts fun p hp => by
      simp [threshSampleA, not_lt.2 (h p hp).le, (h p hp).le.not_lt, (h p hp).not_le]
  · intro h
    exact runGen_fixed_mem _ _ _ xts fun p hp => by
      simp [threshSampleA, (h p hp).not_le, not_le.2 (h p hp), (h p hp).le.not_lt]
  · intro hlow hhigh hne
    obtain ⟨h0, hs, rfl⟩ : ∃ h0 hs, highs = h0 :: hs := by
      cases highs with
      | nil => exact absurd rfl hne
      | cons a l => exact ⟨a, l, rfl⟩
    have low_run : runGen (threshSampleI 0 t) true lows
        = (true, List.replicate lows.length 0) :=
      runGen_fixed_mem _ _ _ lows fun x hx => by
        simp [threshSampleI, (hlow x hx).not_lt]
    have hh0 : h0 > t := hhigh h0 (by simp)
    have high_run : runGen (threshSampleI 0 t) false hs
        = (false, List.replicate hs.length 0) :=
      runGen_fixed_mem _ _ _ hs fun x hx => by
        have hx' : x > t := hhigh x (by simp [hx])
        simp [threshSampleI, not_lt.2 hx'.le, hx'.le.not_lt, hx'.not_le]
    have split_run : ∀ (s : Bool) (l1 l2 : List ℚ),
        runGen (threshSampleI 0 t) s (l1 ++ l2)
          = ((runGen (threshSampleI 0 t) (runGen (threshSampleI 0 t) s l1).1 l2).1,
            (runGen (threshSampleI 0 t) s l1).2
              ++ (runGen (threshSampleI 0 t) (runGen (threshSampleI 0 t) s l1).1 l2).2) := by
      intro s l1 l2
      induction l1 generalizing s with
      | nil => simp [runGen]
      | cons a l ih => simp [runGen, ih]
    unfold Thresh_generates_i
    rw [split_run, low_run]
    simp only [runGen, threshSampleI]
    simp [hh0, high_run]
  · unfold threshSampleI
    norm_num
    split_ifs <;> rfl
  · unfold threshSampleA
    norm_num
    split_ifs <;> rfl


/-- Witness for the C3 theorem: threshold 0, input sitting at the
threshold then stepping above it pulses exactly once, at the crossing. -/
theorem threshLatchWitness :
    (Thresh_generates_i 0 0 true ([0] ++ [1, 1])).2 = [0, 1, 0] := by
  have h := (threshLatch 0 [] [] true [0] [1, 1]).2.2.2.2.2.2.2.1
    (by norm_num) (by norm_num) (by simp)
  simpa using h

/-- Iterated triggers of `Counter_generates` (non-trigger samples do not
change the counter state, so state evolution is per trigger). -/
def counterTrigN (cmin cmax : ℤ) (dir : ℕ) : ℕ → CounterState → CounterState
  | 0, s => s
  | n + 1, s => (counterTrig cmin cmax dir (counterTrigN cmin cmax dir n s)).1

/-- Invariant of the ping-pong counter: the pending value is within the
bounds and the direction is ±1. -/
def CounterInv (cmin cmax : ℤ) (s : CounterState) : Prop :=
  cmin ≤ s.tmp ∧ s.tmp ≤ cmax ∧ (s.direction = 1 ∨ s.direction = -1)

theorem counterTrig_zero (cmin cmax : ℤ) (s : CounterState) :
    counterTrig cmin cmax 0 s
      = (⟨if s.tmp + 1 > cmax then cmin else s.tmp + 1, s.direction⟩, s.tmp) := by
  simp [counterTrig]

theorem counterTrig_two (cmin cmax : ℤ) (s : CounterState) :
    counterTrig cmin cmax 2 s
      = (if cmax ≤ s.tmp + s.direction then (⟨s.tmp + s.direction - 1, -1⟩, s.tmp)
         else if s.tmp + s.direction ≤ cmin then (⟨s.tmp + s.direction + 1, 1⟩, s.tmp)
         else (⟨s.tmp + s.direction, s.direction⟩, s.tmp)) := by
  simp only [counterTrig, ge_iff_le]
  norm_num

theorem counter_forward_state (cmin cmax d0 : ℤ) (h : cmin ≤ cmax) :
    ∀ n : ℕ, counterTrigN cmin cmax 0 n ⟨cmin, d0⟩
      = ⟨cmin + (n : ℤ) % (cmax - cmin + 1), d0⟩ := by
  have hP : 0 < cmax - cmin + 1 := by omega
  intro n
  induction n with
  | zero => simp [counterTrigN, Int.zero_emod]
  | succ n ih =>
    show (counterTrig cmin cmax 0 (counterTrigN cmin cmax 0 n ⟨cmin, d0⟩)).1 = _
    rw [ih, counterTrig_zero]
    have hr0 : 0 ≤ (n : ℤ) % (cmax - cmin + 1) := Int.emod_nonneg _ (by omega)
    have hr1 : (n : ℤ) % (cmax - cmin + 1) < cmax - cmin + 1 :=
      Int.emod_lt_of_pos _ hP
    have hsplit : (n : ℤ) = (cmax - cmin + 1) * ((n : ℤ) / (cmax - cmin + 1))
        + (n : ℤ) % (cmax - cmin + 1) := (Int.ediv_add_emod _ _).symm
    have hmod : ((n : ℤ) + 1) % (cmax - cmin + 1)
        = ((n : ℤ) % (cmax - cmin + 1) + 1) % (cmax - cmin + 1) := by
      conv_lhs => rw [hsplit]
      rw [show (cmax - cmin + 1) * ((n : ℤ) / (cmax - cmin + 1))
            + (n : ℤ) % (cmax - cmin + 1) + 1
          = ((n : ℤ) % (cmax - cmin + 1) + 1)
            + (cmax - cmin + 1) * ((n : ℤ) / (cmax - cmin + 1)) by ring]
      exact Int.add_mul_emod_self_left _ _ _
    rcases lt_or_eq_of_le
        (by omega : (n : ℤ) % (cmax - cmin + 1) + 1 ≤ cmax - cmin + 1)
      with hc | hc
    · have he : ((n : ℤ) + 1) % (cmax - cmin + 1)
          = (n : ℤ) % (cmax - cmin + 1) + 1 := by
        rw [hmod]
        exact Int.emod_eq_of_lt (by omega) hc
      dsimp only
      rw [if_neg (by omega), Nat.cast_add, Nat.cast_one, he]
      exact congrArg (fun z => CounterState.mk z d0) (by ring)
    · have he : ((n : ℤ) + 1) % (cmax - cmin + 1) = 0 := by
        rw [hmod, hc, Int.emod_self]
      dsimp only
      rw [if_pos (by omega), Nat.cast_add, Nat.cast_one, he, add_zero]

theorem counter_pingpong_step (cmin cmax : ℤ) (s : CounterState)
    (h : cmin ≤ cmax) (hs : CounterInv cmin cmax s) :
    CounterInv cmin cmax (counterTrig cmin cmax 2 s).1 := by
  obtain ⟨h1, h2, h3⟩ := hs
  rw [counterTrig_two]
  unfold CounterInv
  split_ifs with e1 e2 <;> dsimp only
  · exact ⟨by omega, by omega, Or.inr rfl⟩
  · exact ⟨by omega, by omega, Or.inl rfl⟩
  · exact ⟨by omega, by omega, h3⟩

/-- C4 (amended): Counter behaviour. Forward mode (dir 0) from `tmp = min`
cycles with period `max - min + 1`: after n triggers the pending value is
`min + n % (max-min+1)`, so successive triggers emit min..max and wrap to
min (first conjunct); every trigger emits the pre-advance `tmp` (second).
Ping-pong (dir 2) from the initial state `(min, +1)` keeps every pending —
hence every emitted — value inside `[min, max]` (third to fifth conjunct).
But the code reverses when the stepped value would REACH OR EXCEED a
bound: `tmp + direction ≥ max` reverses high and steps back in the same
tick (sixth), and otherwise `tmp + direction ≤ min` reverses low (seventh)
— so `max` itself is never reached going up. -/
theorem counterModes (cmin cmax : ℤ) (s : CounterState) (n : ℕ) (d0 : ℤ)
    (h : cmin ≤ cmax) :
    (counterTrigN cmin cmax 0 n ⟨cmin, d0⟩
      = ⟨cmin + (n : ℤ) % (cmax - cmin + 1), d0⟩) ∧
    (∀ dir : ℕ, (counterTrig cmin cmax dir s).2 = s.tmp) ∧
    CounterInv cmin cmax ⟨cmin, 1⟩ ∧
    (CounterInv cmin cmax s → CounterInv cmin cmax (counterTrig cmin cmax 2 s).1) ∧
    CounterInv cmin cmax (counterTrigN cmin cmax 2 n ⟨cmin, 1⟩) ∧
    (cmax ≤ s.tmp + s.direction →
      counterTrig cmin cmax 2 s = (⟨s.tmp + s.direction - 1, -1⟩, s.tmp)) ∧
    (s.tmp + s.direction < cmax → s.tmp + s.direction ≤ cmin →
      counterTrig cmin cmax 2 s = (⟨s.tmp + s.direction + 1, 1⟩, s.tmp)) := by
  refine ⟨counter_forward_state cmin cmax d0 h n, ?_, ⟨le_refl _, h, Or.inl rfl⟩,
    counter_pingpong_step cmin cmax s h, ?_, ?_, ?_⟩
  · intro dir
    unfold counterTrig
    dsimp only
    split_ifs <;> rfl
  · induction n with
    | zero => exact ⟨le_refl _, h, Or.inl rfl⟩
    | succ n ih => exact counter_pingpong_step cmin cmax _ h ih
  · intro hge
    rw [counterTrig_two, if_pos hge]
  · intro hlt hle
    rw [counterTrig_two, if_neg (by omega), if_pos hle]

/-- Witness for the C4 theorem: with min 0, max 2, dir-2 state (1, +1), the
code reverses high (the step would exactly reach max), and forward mode
after four triggers from 0 holds 0 + 4 % 3 = 1. -/
theorem counterModesWitness :
    counterTrig 0 2 2 ⟨1, 1⟩ = (⟨1, -1⟩, 1) ∧
    counterTrigN 0 2 0 4 ⟨0, 5⟩ = ⟨0 + (4 : ℤ) % (2 - 0 + 1), 5⟩ := by
  have h := counterModes 0 2 ⟨1, 1⟩ 4 5 (by norm_num)
  refine ⟨?_, h.1⟩
  have h6 := h.2.2.2.2.2.1 (by norm_num)
  simpa using h6

theorem loopseg_playback_step (xx1 xx2 : ℚ) (s : LoopsegState)
    (h1 : s.loopChoice = 1) (hk : s.loopCountPlay + 1 < s.loopLen)
    (h3 : s.loopTime ≠ s.loopStop) :
    TrigXnoise_loopseg xx1 xx2 s =
      ({ s with loopCountRec := 0,
                walkerValue := s.loop_buffer.getD s.loopCountPlay 0,
                loopCountPlay := s.loopCountPlay + 1 },
        s.loop_buffer.getD s.loopCountPlay 0) := by
  obtain ⟨w, buf, ch, cp, lt, cr, ll, ls, rs⟩ := s
  simp only at h1 hk h3
  subst h1
  simp only [TrigXnoise_loopseg]
  rw [if_neg (by omega)]
  dsimp only [popRand]
  rw [if_pos hk, if_neg h3]

theorem loopseg_playback_out (xx1 xx2 : ℚ) (s : LoopsegState)
    (h1 : s.loopChoice = 1) :
    (TrigXnoise_loopseg xx1 xx2 s).2 = s.loop_buffer.getD s.loopCountPlay 0 ∧
    (TrigXnoise_loopseg xx1 xx2 s).1.loop_buffer = s.loop_buffer := by
  obtain ⟨w, buf, ch, cp, lt, cr, ll, ls, rs⟩ := s
  simp only at h1
  subst h1
  simp only [TrigXnoise_loopseg]
  rw [if_neg (by omega)]
  dsimp only [popRand]
  split_ifs <;> exact ⟨rfl, rfl⟩

theorem loopseg_playback_pass (xx1 xx2 : ℚ) :
    ∀ (n : ℕ) (s : LoopsegState), s.loopChoice = 1 →
      s.loopCountPlay + n ≤ s.loopLen → s.loopTime ≠ s.loopStop →
      (runGen (fun st (_ : Unit) => TrigXnoise_loopseg xx1 xx2 st) s
          (List.replicate n ())).2
        = (List.range n).map fun i => s.loop_buffer.getD (s.loopCountPlay + i) 0 := by
  intro n
  induction n with
  | zero => intro s _ _ _; simp [runGen]
  | succ n ih =>
    intro s h1 h2 h3
    rw [List.replicate_succ, List.range_succ_eq_map]
    simp only [runGen, List.map_cons, List.map_map]
    by_cases hn : n = 0
    · subst hn
      simp only [List.replicate, runGen, List.range_zero, List.map_nil]
      exact congrArg (fun q => (q :: [] : List ℚ)) (by
        simpa using (loopseg_playback_out xx1 xx2 s h1).1)
    · have hk : s.loopCountPlay + 1 < s.loopLen := by omega
      rw [loopseg_playback_step xx1 xx2 s h1 hk h3]
      dsimp only
      rw [ih _ (by dsimp only; exact h1) (by dsimp only; omega) (by dsimp only; exact h3)]
      refine congrArg (fun q => _ :: q) (List.map_congr_left fun i hi => ?_)
      simp only [Function.comp_apply]
      congr 1
      omega

/-- C5 counterexample: the loop length is drawn as `(rand()%10)+3`, whose
range is [3,12], not [8,12]: with a `rand()` result divisible by 10 the
draw gives 3 — both at construction (`loopLenDraw 0 = 3`) and at a
playback-to-recording transition of the running machine. -/
theorem loopsegLenCounterexample :
    loopLenDraw 0 = 3 ∧ ¬(8 ≤ 3) ∧
    (TrigXnoise_loopseg 1 1
        ⟨0, [5, 6, 7, 0, 0, 0, 0, 0, 0, 0, 0, 0, 0, 0, 0], 1, 2, 0, 0, 3, 1,
          [0]⟩).1.loopLen = 3 := by
  refine ⟨rfl, by norm_num, ?_⟩
  norm_num [TrigXnoise_loopseg, popRand, loopLenDraw, List.getD, List.get?]

/-- C5 (amended): phases of the looped random walk. The length draw
`(rand()%10)+3` lies in [3,12] (not [8,12]) and the repeat draw
`(rand()%4)+1` in [1,4] (first conjunct); whenever a call switches the
machine from playback to recording the freshly drawn `loopLen` is in
[3,12] (second), and whenever it switches from recording to playback the
freshly drawn `loopStop` is in [1,4] (third); every playback call emits
`loop_buffer[loopCountPlay]` and leaves the recorded buffer untouched
(fourth); and a full playback pass started at `loopCountPlay = 0` replays
`loop_buffer[0..loopLen-1]` verbatim in recording order (fifth). -/
theorem loopsegPhases (xx1 xx2 : ℚ) (s : LoopsegState) (r : ℕ) :
    (3 ≤ loopLenDraw r ∧ loopLenDraw r ≤ 12 ∧
      1 ≤ loopStopDraw r ∧ loopStopDraw r ≤ 4) ∧
    (s.loopChoice = 1 → (TrigXnoise_loopseg xx1 xx2 s).1.loopChoice = 0 →
      3 ≤ (TrigXnoise_loopseg xx1 xx2 s).1.loopLen ∧
      (TrigXnoise_loopseg xx1 xx2 s).1.loopLen ≤ 12) ∧
    (s.loopChoice = 0 → (TrigXnoise_loopseg xx1 xx2 s).1.loopChoice = 1 →
      1 ≤ (TrigXnoise_loopseg xx1 xx2 s).1.loopStop ∧
      (TrigXnoise_loopseg xx1 xx2 s).1.loopStop ≤ 4) ∧
    (s.loopChoice = 1 →
      (TrigXnoise_loopseg xx1 xx2 s).2 = s.loop_buffer.getD s.loopCountPlay 0 ∧
      (TrigXnoise_loopseg xx1 xx2 s).1.loop_buffer = s.loop_buffer) ∧
    (s.loopChoice = 1 → s.loopCountPlay = 0 → s.loopTime ≠ s.loopStop →
      (runGen (fun st (_ : Unit) => TrigXnoise_loopseg xx1 xx2 st) s
          (List.replicate s.loopLen ())).2
        = (List.range s.loopLen).map fun i => s.loop_buffer.getD i 0) := by
  have hlen : ∀ q : ℕ, 3 ≤ loopLenDraw q ∧ loopLenDraw q ≤ 12 := by
    intro q
    have := Nat.mod_lt q (show 0 < 10 by norm_num)
    unfold loopLenDraw
    omega
  have hstop : ∀ q : ℕ, 1 ≤ loopStopDraw q ∧ loopStopDraw q ≤ 4 := by
    intro q
    have := Nat.mod_lt q (show 0 < 4 by norm_num)
    unfold loopStopDraw
    omega
  refine ⟨⟨(hlen r).1, (hlen r).2, (hstop r).1, (hstop r).2⟩, ?_, ?_, ?_, ?_⟩
  · obtain ⟨w, buf, ch, cp, lt, cr, ll, ls, rs⟩ := s
    intro h1 h0
    simp only at h1
    subst h1
    simp only [TrigXnoise_loopseg] at h0 ⊢
    rw [if_neg (by omega)] at h0 ⊢
    dsimp only [popRand] at h0 ⊢
    split_ifs at h0 ⊢ with e1 e2 e3 <;> (try dsimp only at h0 ⊢) <;>
      first
        | exact hlen _
        | omega
  · obtain ⟨w, buf, ch, cp, lt, cr, ll, ls, rs⟩ := s
    intro h1 h0
    simp only at h1
    subst h1
    simp only [TrigXnoise_loopseg, if_true] at h0 ⊢
    dsimp only [popRand] at h0 ⊢
    split_ifs at h0 ⊢ with e1 <;> (try dsimp only at h0 ⊢) <;>
      first
        | exact hstop _
        | omega
  · exact fun h1 => loopseg_playback_out xx1 xx2 s h1
  · intro h1 h2 h3
    have h := loopseg_playback_pass xx1 xx2 s.loopLen s h1 (by omega) h3
    rw [h]
    refine List.map_congr_left fun i hi => ?_
    rw [h2, Nat.zero_add]

/-- Witness for the C5 theorem: a recorded segment [5, 6, 7] of length 3 is
replayed verbatim by a playback pass. -/
theorem loopsegPhasesWitness :
    (runGen (fun st (_ : Unit) => TrigXnoise_loopseg 1 1 st)
        ⟨0, [5, 6, 7, 0, 0, 0, 0, 0, 0, 0, 0, 0, 0, 0, 0], 1, 0, 0, 0, 3, 2, []⟩
        (List.replicate 3 ())).2 = [5, 6, 7] := by
  have h := (loopsegPhases 1 1
      ⟨0, [5, 6, 7, 0, 0, 0, 0, 0, 0, 0, 0, 0, 0, 0, 0], 1, 0, 0, 0, 3, 2, []⟩
      0).2.2.2.2 rfl rfl (by norm_num)
  rw [h]
  norm_num [List.range_succ, List.getD, List.get?]

/-- The mass `x/1! + x^2/2! + ... + x^11/11!` summed by the Poisson table
builder: the fill is bounded by `1000 * E * poissonMass x`. -/
def poissonMass (x : ℚ) : ℚ :=
  ((List.range' 1 11).map fun i => x ^ i / ((Nat.factorial i : ℕ) : ℚ)).sum

theorem clampLow_le (lo q : ℚ) : lo ≤ clampLow lo q := by
  unfold clampLow
  split_ifs with h
  · exact le_refl lo
  · exact not_lt.mp h

/-- C6 counterexample: at x1 = 50 the exact value of the code's
`powf(2.7182818, -50)` is `(10^7/27182818)^50 < 2^-50`, and every table
increment `(long)(1000*E*50^i/i!)` for i = 1..11 truncates to 0 (each term
is below 0.11), so the rebuilt table is empty and the draw reaches
`rand() % 0` — modelled as `none` (in C, a division by zero). -/
theorem poissonDivisorZeroCounterexample :
    (TrigXnoise_poisson ((10000000 / 27182818 : ℚ) ^ (50 : ℕ)) 0 50 (1/2)
        poissonInit).2 = none ∧
    (TrigXnoise_poisson ((10000000 / 27182818 : ℚ) ^ (50 : ℕ)) 0 50 (1/2)
        poissonInit).1.buffer = [] := by
  constructor <;>
    norm_num [TrigXnoise_poisson, poissonInit, clampLow, poissonBuild,
      List.range', Nat.factorial]

/-- C6 (amended): the Poisson cache obeys its invariant — after any draw
`lastPoissonX1` equals the current clamped x1 (first conjunct); the table
is rebuilt exactly when the clamped x1 differs from `lastPoissonX1`
(second and fourth conjunct), and in particular on the very first draw,
since no clamped x1 can equal the constructor sentinel -99 (third); the
table fill never exceeds the 2000-slot buffer provided the computed
exponential weight E satisfies `1000 * E * poissonMass x1 ≤ 2000`, which
holds of the real `powf(2.7182818, -x1)` for every x1 (fifth); and the
draw fails (divides by zero) exactly when the table is empty (sixth) — so
the claim's "divisor nonzero at every draw" does not hold in general. -/
theorem poissonCache (expv : ℚ) (r : ℕ) (x1 x2 : ℚ) (s : PoissonState) :
    ((TrigXnoise_poisson expv r x1 x2 s).1.lastPoissonX1 = clampLow (1/10) x1) ∧
    (clampLow (1/10) x1 ≠ s.lastPoissonX1 →
      (TrigXnoise_poisson expv r x1 x2 s).1.buffer
        = poissonBuild expv (clampLow (1/10) x1)) ∧
    ((TrigXnoise_poisson expv r x1 x2 poissonInit).1.buffer
      = poissonBuild expv (clampLow (1/10) x1)) ∧
    (clampLow (1/10) x1 = s.lastPoissonX1 →
      (TrigXnoise_poisson expv r x1 x2 s).1.buffer = s.buffer) ∧
    (0 ≤ expv → 1000 * expv * poissonMass (clampLow (1/10) x1) ≤ 2000 →
      (poissonBuild expv (clampLow (1/10) x1)).length ≤ 2000) ∧
    ((TrigXnoise_poisson expv r x1 x2 s).2 = none ↔
      (TrigXnoise_poisson expv r x1 x2 s).1.buffer = []) := by
  have hbuf : ∀ t : PoissonState,
      (TrigXnoise_poisson expv r x1 x2 t).1
        = if clampLow (1/10) x1 ≠ t.lastPoissonX1 then
            ⟨clampLow (1/10) x1, poissonBuild expv (clampLow (1/10) x1)⟩
          else t := by
    intro t
    unfold TrigXnoise_poisson
    dsimp only
    split_ifs <;> rfl
  have hsent : clampLow (1/10) x1 ≠ (-99 : ℚ) := by
    have := clampLow_le (1/10) x1
    intro hc
    rw [hc] at this
    norm_num at this
  refine ⟨?_, ?_, ?_, ?_, ?_, ?_⟩
  · rw [hbuf s]
    split_ifs with h
    · rfl
    · exact (not_ne_iff.mp h).symm
  · intro h
    rw [hbuf s, if_pos h]
  · rw [hbuf poissonInit, if_pos (by simpa [poissonInit] using hsent)]
  · intro h
    rw [hbuf s, if_neg (not_ne_iff.mpr h)]
  · intro hnn hmass
    set x := clampLow (1/10) x1 with hx
    have hx0 : 0 < x := lt_of_lt_of_le (by norm_num) (clampLow_le (1/10) x1)
    unfold poissonBuild
    rw [List.length_flatten, List.map_map]
    have hterm : ∀ i ∈ List.range' 1 11,
        ((List.length ∘ fun i =>
            List.replicate
              (Int.toNat ⌊1000 * expv * x ^ i / ((Nat.factorial i : ℕ) : ℚ)⌋)
              ((i : ℕ) : ℚ)) i : ℚ)
          ≤ 1000 * expv * (x ^ i / ((Nat.factorial i : ℕ) : ℚ)) := by
      intro i _
      simp only [Function.comp_apply, List.length_replicate]
      have hpos : (0 : ℚ) ≤ 1000 * expv * x ^ i / ((Nat.factorial i : ℕ) : ℚ) := by
        have hf : (0 : ℚ) < ((Nat.factorial i : ℕ) : ℚ) := by
          exact_mod_cast Nat.factorial_pos i
        positivity
      have h1 : (0 : ℤ) ≤ ⌊1000 * expv * x ^ i / ((Nat.factorial i : ℕ) : ℚ)⌋ :=
        Int.floor_nonneg.mpr hpos
      have h2 : ((Int.toNat ⌊1000 * expv * x ^ i / ((Nat.factorial i : ℕ) : ℚ)⌋ : ℤ) : ℚ)
          ≤ 1000 * expv * x ^ i / ((Nat.factorial i : ℕ) : ℚ) := by
        rw [Int.toNat_of_nonneg h1]
        exact Int.floor_le _
      calc ((Int.toNat ⌊1000 * expv * x ^ i / ((Nat.factorial i : ℕ) : ℚ)⌋ : ℕ) : ℚ)
          = ((Int.toNat ⌊1000 * expv * x ^ i / ((Nat.factorial i : ℕ) : ℚ)⌋ : ℤ) : ℚ) := by
            push_cast
            rfl
        _ ≤ 1000 * expv * x ^ i / ((Nat.factorial i : ℕ) : ℚ) := h2
        _ = 1000 * expv * (x ^ i / ((Nat.factorial i : ℕ) : ℚ)) := by ring
    have hsum : ((((List.range' 1 11).map
          (List.length ∘ fun i =>
            List.replicate
              (Int.toNat ⌊1000 * expv * x ^ i / ((Nat.factorial i : ℕ) : ℚ)⌋)
              ((i : ℕ) : ℚ))).sum : ℕ) : ℚ) ≤ 2000 := by
      rw [Nat.cast_list_sum, List.map_map]
      calc ((List.range' 1 11).map
            (Nat.cast ∘ (List.length ∘ fun i =>
              List.replicate
                (Int.toNat ⌊1000 * expv * x ^ i / ((Nat.factorial i : ℕ) : ℚ)⌋)
                ((i : ℕ) : ℚ)))).sum
          ≤ ((List.range' 1 11).map
              fun i => 1000 * expv * (x ^ i / ((Nat.factorial i : ℕ) : ℚ))).sum :=
            List.sum_le_sum fun i hi => hterm i hi
        _ = 1000 * expv * poissonMass x := by
            rw [List.sum_map_mul_left]
            rfl
        _ ≤ 2000 := hmass
    exact_mod_cast hsum
  · unfold TrigXnoise_poisson
    dsimp only
    by_cases hB : (if clampLow (1/10) x1 ≠ s.lastPoissonX1 then
          (⟨clampLow (1/10) x1, poissonBuild expv (clampLow (1/10) x1)⟩ : PoissonState)
        else s).buffer.length = 0
    · rw [if_pos hB]
      simpa using List.length_eq_zero.mp hB
    · rw [if_neg hB]
      rw [List.length_eq_zero] at hB
      simp only [ne_eq, ite_not, one_div] at hB ⊢
      simp [hB]

/-- Witness for the C6 theorem: with E = 0.37 (the real weight at x1 = 1 is
about 0.3679) the fill bound holds and evaluates to at most 2000. -/
theorem poissonCacheWitness :
    (poissonBuild (37/100) (clampLow (1/10) 1)).length ≤ 2000 := by
  refine (poissonCache (37/100) 0 1 1 poissonInit).2.2.2.2.1 (by norm_num) ?_
  norm_num [poissonMass, List.range', Nat.factorial, clampLow]
